import Mathlib

/-!
Verification development for the normalization-and-loss subsystem of the
nequip training pipeline.  The definitions below are a shallow embedding of
the two source files `nequip/train/_loss.py` and `nequip/model/_scaling.py`;
the theorems settle the behavioural claims made about them.

Numeric modelling conventions:

* Tensor entries are exact rationals.  A reference entry that is IEEE NaN is
  modelled by the constructor `RVal.nan`; elementwise loss functions are
  arbitrary `f : ℚ → ℚ → ℚ` lifted through `lossEntryR`, which propagates
  NaN exactly as IEEE elementwise arithmetic does.
* `torch.isnan(ref.mean())` (resp. `ref.sum()`) is, in exact arithmetic over
  finite entries, true exactly when some entry of `ref` is NaN; it is
  modelled by `refHasNan`.
* `PerSpeciesLoss` applies `Tensor.reciprocal` to an integer count tensor;
  PyTorch promotes the integers to floating point, so a zero count yields
  IEEE `+inf`.  The type `FVal` extends the rationals with `pinf`, `ninf`
  and `nanF` and implements the IEEE rules this code path relies on:
  `1/0 = +inf`, `0 * inf = NaN`, `inf == inf` is true, `NaN == NaN` is
  false, and NaN is absorbing for `+` and `*`.
* Dividing a value by a zero count (mean of an empty tensor, `x/0`) is
  modelled as NaN; every theorem below only divides by positive counts
  except where the NaN outcome is itself the point.
-/

/-- A tensor entry: either IEEE NaN or a finite (rational) value. -/
inductive RVal where
  | nan : RVal
  | val : ℚ → RVal
deriving DecidableEq

/-- Extended value type for the `PerSpeciesLoss` NaN branch, where the
reciprocal of an integer count can produce IEEE infinities. -/
inductive FVal where
  | nanF : FVal
  | pinf : FVal
  | ninf : FVal
  | valF : ℚ → FVal
deriving DecidableEq

def RVal.isNan : RVal → Bool
  | .nan => true
  | .val _ => false

@[simp] theorem RVal.isNan_val (q : ℚ) : (RVal.val q).isNan = false := rfl

@[simp] theorem RVal.isNan_nan : RVal.nan.isNan = true := rfl

/-- IEEE addition on finite-or-NaN values. -/
def RVal.add : RVal → RVal → RVal
  | .nan, _ => .nan
  | _, .nan => .nan
  | .val a, .val b => .val (a + b)

/-- Sum of a list of entries (NaN absorbing), models `Tensor.sum`. -/
def RVal.sumL (l : List RVal) : RVal := l.foldr RVal.add (.val 0)

/-- Division of a value by an integer count; a zero count yields NaN
(models the non-finite outcome of dividing by an empty-group count). -/
def RVal.divCnt : RVal → ℕ → RVal
  | .nan, _ => .nan
  | .val q, n => if n = 0 then .nan else .val (q / (n : ℚ))

/-- `torch.nan_to_num(ref, nan=0.0)` on a finite-or-NaN entry. -/
def nanToNum0 : RVal → ℚ
  | .nan => 0
  | .val q => q

/-- `(ref == ref).int()` on one entry: 0 for NaN, 1 otherwise. -/
def notNanB (r : RVal) : ℕ := if r.isNan then 0 else 1

/-- `self.ignore_nan and torch.isnan(ref.mean())` (resp. `.sum()`): in exact
arithmetic over finite entries this is true iff some entry is NaN. -/
def refHasNan (ref : List (List RVal)) : Bool :=
  ref.any (fun row => row.any RVal.isNan)

/-- Elementwise loss on one (pred, ref) entry pair, NaN propagating:
models `self.func(pred, ref)` entrywise. -/
def lossEntryR (f : ℚ → ℚ → ℚ) (p : ℚ) : RVal → RVal
  | .nan => .nan
  | .val r => .val (f p r)

/-- Masked elementwise loss entry:
`self.func(pred, torch.nan_to_num(ref, nan=0.0)) * not_nan`. -/
def maskedEntry (f : ℚ → ℚ → ℚ) (p : ℚ) (r : RVal) : ℚ :=
  f p (nanToNum0 r) * (notNanB r : ℚ)

def tensorMaskedLoss (f : ℚ → ℚ → ℚ) (pred : List (List ℚ)) (ref : List (List RVal)) :
    List (List ℚ) :=
  List.zipWith (fun ps rs => List.zipWith (maskedEntry f) ps rs) pred ref

def tensorLossR (f : ℚ → ℚ → ℚ) (pred : List (List ℚ)) (ref : List (List RVal)) :
    List (List RVal) :=
  List.zipWith (fun ps rs => List.zipWith (lossEntryR f) ps rs) pred ref

/-- `not_nan.sum()`: total number of non-NaN reference entries. -/
def totalNotNan (ref : List (List RVal)) : ℕ :=
  (ref.map (fun row => (row.map notNanB).sum)).sum

def tensorSumR (t : List (List RVal)) : RVal := RVal.sumL (t.map RVal.sumL)

def tensorCount (t : List (List RVal)) : ℕ := (t.map List.length).sum

/-- `Tensor.mean()` over all entries. -/
def meanAllR (t : List (List RVal)) : RVal := RVal.divCnt (tensorSumR t) (tensorCount t)

/-- Row mean, models `.mean(dim=reduce_dims)` for one leading index. -/
def rowMeanR (row : List RVal) : RVal := RVal.divCnt (RVal.sumL row) row.length

/-- Loss evaluator state built by `SimpleLoss.__init__`: the elementwise
function instantiated from `torch.nn` by name (with `reduction="none"`),
the remembered name, and the `ignore_nan` flag from `params`. -/
structure LossCfg where
  funcName : String
  func : ℚ → ℚ → ℚ
  ignoreNan : Bool

/-- Result of a loss call: a scalar (`mean=True`) or the per-entry loss
tensor (`mean=False`). -/
inductive LossOut where
  | scalar : RVal → LossOut
  | tens : List (List RVal) → LossOut
deriving DecidableEq

inductive LossErr where
  | notGraphField : String → LossErr
  | notImpl : LossErr
deriving DecidableEq

/-- `SimpleLoss.__call__` (lines 40-64 of `_loss.py`): the prediction and
reference tensors for the requested key, with leading axis node-or-graph
index and one trailing feature axis. -/
def simpleLossCall (cfg : LossCfg) (pred : List (List ℚ)) (ref : List (List RVal))
    (mean : Bool) : LossOut :=
  let hasNan := cfg.ignoreNan && refHasNan ref
  if hasNan then
    let loss := tensorMaskedLoss cfg.func pred ref
    if mean then
      .scalar (RVal.divCnt (.val ((loss.map List.sum).sum)) (totalNotNan ref))
    else
      .tens (loss.map (fun row => row.map RVal.val))
  else
    let loss := tensorLossR cfg.func pred ref
    if mean then .scalar (meanAllR loss) else .tens loss

/-- `torch.bincount` length: `max(batch)+1`, or 0 on an empty input. -/
def dimSize (idx : List ℕ) : ℕ :=
  match idx with
  | [] => 0
  | _ :: _ => idx.foldr max 0 + 1

/-- Number of atoms assigned to graph `g`. -/
def countOf (batch : List ℕ) (g : ℕ) : ℕ := (batch.filter (fun b => b == g)).length

/-- `torch.bincount(batch)`. -/
def bincount (batch : List ℕ) : List ℕ := (List.range (dimSize batch)).map (countOf batch)

/-- One elementwise division of a finite loss value by a graph atom count. -/
def qDivCnt (q : ℚ) (n : ℕ) : RVal := if n = 0 then .nan else .val (q / (n : ℚ))

/-- Divide each graph row of a loss tensor by that graph's atom count
(`loss / N` with `N` reshaped to broadcast over the feature axis). -/
def divRowsByN (t : List (List RVal)) (N : List ℕ) : List (List RVal) :=
  List.zipWith (fun row n => row.map (fun x => RVal.divCnt x n)) t N

/-- `PerAtomLoss.__call__` (lines 68-107 of `_loss.py`).  `graphFields`
models the external `_GRAPH_FIELDS` registry; `batch` is
`ref[AtomicDataDict.BATCH_KEY]`, the per-atom graph assignment. -/
def perAtomCall (cfg : LossCfg) (graphFields : List String) (key : String)
    (pred : List (List ℚ)) (ref : List (List RVal)) (batch : List ℕ)
    (mean : Bool) : Except LossErr LossOut :=
  if key ∈ graphFields then
    let hasNan := cfg.ignoreNan && refHasNan ref
    let N := bincount batch
    if hasNan then
      let loss0 := (tensorMaskedLoss cfg.func pred ref).map (fun row => row.map RVal.val)
      let loss1 := divRowsByN loss0 N
      let loss2 := if cfg.funcName = "MSELoss" then divRowsByN loss1 N else loss1
      .ok (if mean then .scalar (RVal.divCnt (tensorSumR loss2) (totalNotNan ref))
           else .tens loss2)
    else
      let loss0 := tensorLossR cfg.func pred ref
      let loss1 := divRowsByN loss0 N
      let loss2 := if cfg.funcName = "MSELoss" then divRowsByN loss1 N else loss1
      .ok (if mean then .scalar (meanAllR loss2) else .tens loss2)
  else .error (.notGraphField key)

/-- `Tensor.reciprocal` applied to an integer count: PyTorch promotes to
floating point, so `0` maps to `+inf` and `n > 0` to `1/n`. -/
def recipCount (n : ℕ) : FVal := if n = 0 then .pinf else .valF (1 / (n : ℚ))

/-- Multiplication of a finite value by an extended value, IEEE rules
(`0 * ±inf = NaN`). Models `per_species_loss * N`. -/
def mulQF (q : ℚ) : FVal → FVal
  | .nanF => .nanF
  | .pinf => if 0 < q then .pinf else if q < 0 then .ninf else .nanF
  | .ninf => if 0 < q then .ninf else if q < 0 then .pinf else .nanF
  | .valF r => .valF (q * r)

/-- IEEE addition on extended values. -/
def FVal.add : FVal → FVal → FVal
  | .nanF, _ => .nanF
  | _, .nanF => .nanF
  | .pinf, .ninf => .nanF
  | .ninf, .pinf => .nanF
  | .pinf, _ => .pinf
  | _, .pinf => .pinf
  | .ninf, _ => .ninf
  | _, .ninf => .ninf
  | .valF a, .valF b => .valF (a + b)

def FVal.sumL (l : List FVal) : FVal := l.foldr FVal.add (.valF 0)

def FVal.divCnt : FVal → ℕ → FVal
  | _, 0 => .nanF
  | .nanF, _ => .nanF
  | .pinf, _ => .pinf
  | .ninf, _ => .ninf
  | .valF q, n => .valF (q / (n : ℚ))

/-- IEEE self-equality `x == x`: false exactly for NaN (true for ±inf).
Models the elementwise `N == N` test. -/
def ieeeSelfEq : FVal → Bool
  | .nanF => false
  | _ => true

def toFVal : RVal → FVal
  | .nan => .nanF
  | .val q => .valF q

/-- `torch_runstats.scatter(src, index, dim=0)`: per-slot sums with
`dim_size = max(index)+1`. -/
def scatterSum {α : Type} [AddCommMonoid α] (vals : List α) (idx : List ℕ) (K : ℕ) :
    List α :=
  (List.range K).map (fun k => (((idx.zip vals).filter (fun p => p.1 == k)).map Prod.snd).sum)

/-- `torch_runstats.scatter_mean(src, index, dim=0)` on finite-or-NaN
values: per-slot sum divided by per-slot count. -/
def scatterMeanR (vals : List RVal) (idx : List ℕ) (K : ℕ) : List RVal :=
  (List.range K).map (fun k =>
    let g := ((idx.zip vals).filter (fun p => p.1 == k)).map Prod.snd
    RVal.divCnt (RVal.sumL g) g.length)

/-- `torch.unique` return value: sorted distinct labels. -/
def uniqueSorted (l : List ℕ) : List ℕ := List.insertionSort (· ≤ ·) l.dedup

/-- `PerSpeciesLoss.__call__` (lines 117-173 of `_loss.py`).  `speIdx` is
`pred[AtomicDataDict.ATOM_TYPE_KEY].squeeze(-1)`, the per-atom species
label.  The NaN branch follows lines 142-159: per-atom losses are summed
over the feature axis, scatter-summed by raw species label, multiplied by
the reciprocal of the per-species valid-atom count, summed, and divided by
the number of species slots passing the `N == N` test.  The non-NaN branch
follows lines 161-173: species labels are remapped through
`torch.unique(..., return_inverse=True)` and group means are averaged. -/
def perSpeciesCall (cfg : LossCfg) (pred : List (List ℚ)) (ref : List (List RVal))
    (speIdx : List ℕ) (mean : Bool) : Except LossErr FVal :=
  if mean then
    let hasNan := cfg.ignoreNan && refHasNan ref
    if hasNan then
      let palQ := (tensorMaskedLoss cfg.func pred ref).map List.sum
      let K := dimSize speIdx
      let psl := scatterSum palQ speIdx K
      let ncnt := scatterSum (ref.map (fun row => (row.map notNanB).sum)) speIdx K
      let nrec := ncnt.map recipCount
      let nsp := (nrec.filter ieeeSelfEq).length
      .ok (FVal.divCnt (FVal.sumL (List.zipWith mulQF psl nrec)) nsp)
    else
      let palR := (tensorLossR cfg.func pred ref).map rowMeanR
      let uniq := uniqueSorted speIdx
      let inv := speIdx.map (fun s => uniq.indexOf s)
      let psl := scatterMeanR palR inv uniq.length
      .ok (toFVal (RVal.divCnt (RVal.sumL psl) psl.length))
  else .error .notImpl

/-- Argument given to `find_loss_function`: a string name, a class object,
a non-class callable, or anything else. -/
inductive LossArg where
  | strA : String → LossArg
  | classA : LossArg
  | callableA : LossArg
  | otherA : LossArg
deriving DecidableEq

/-- What `find_loss_function` constructs. -/
inductive LossInst where
  | perSpeciesW : String → LossInst
  | perAtomW : String → LossInst
  | simpleW : String → LossInst
  | simpleOfClass : LossInst
  | passthrough : LossInst
deriving DecidableEq

inductive FactoryErr where
  | notImplementedName : FactoryErr
deriving DecidableEq

/-- `name.lower().startswith(key)`: case-insensitive prefix test, written
at character level. -/
def lowerStartsWith (s key : String) : Bool :=
  key.data.isPrefixOf (s.data.map Char.toLower)

/-- `find_loss_function` (lines 176-199 of `_loss.py`).  The wrapper dict
is iterated in insertion order: `perspecies` before `peratom`; matching is
case-insensitive on the whole name and the matched prefix length is
stripped from the original (case-preserved) name. -/
def findLossFunction : LossArg → Except FactoryErr LossInst
  | .strA s =>
    if lowerStartsWith s "perspecies" then .ok (.perSpeciesW (s.drop 10))
    else if lowerStartsWith s "peratom" then .ok (.perAtomW (s.drop 7))
    else .ok (.simpleW s)
  | .classA => .ok .simpleOfClass
  | .callableA => .ok .passthrough
  | .otherA => .error .notImplementedName

/-- Modelled from the spec: the force quantity key from the external
quantity-key registry (`AtomicDataDict`), which is outside the two embedded
source files.  The literal spelling is representative; theorems depend only
on the keys being distinct strings. -/
def FORCE_KEY : String := "forces"

/-- Modelled from the spec: the total-energy quantity key of the external
quantity-key registry. -/
def TOTAL_ENERGY_KEY : String := "total_energy"

/-- Modelled from the spec: the per-atom-energy quantity key of the
external quantity-key registry. -/
def PER_ATOM_ENERGY_KEY : String := "atomic_energy"

/-- Modelled from the spec: the stress quantity key of the external
quantity-key registry. -/
def STRESS_KEY : String := "stress"

/-- A configuration value: the scale/shift options accept a statistic
identifier string, a float, a list, a tensor (folded into `lst`), `None`,
booleans, lists of strings (for `train_on_keys`), or anything else. -/
inductive CVal where
  | str : String → CVal
  | num : ℚ → CVal
  | lst : List ℚ → CVal
  | strList : List String → CVal
  | boolV : Bool → CVal
  | noneV : CVal
  | other : CVal
deriving DecidableEq

/-- The configuration mapping (ordered key/value pairs). -/
abbrev Config := List (String × CVal)

/-- `key in config` lookup; `config[key]` raises KeyError when this is
`none`. -/
def cfgLookup (c : Config) (k : String) : Option CVal :=
  (c.find? (fun p => p.1 == k)).map Prod.snd

/-- `config.get(key, default)`. -/
def cfgGet (c : Config) (k : String) (d : CVal) : CVal := (cfgLookup c k).getD d

/-- Python truthiness, as tested by `assert config[...]`. -/
def truthy : CVal → Bool
  | .str s => !(s == "")
  | .num q => !(q == 0)
  | .lst l => !l.isEmpty
  | .strList l => !l.isEmpty
  | .boolV b => b
  | .noneV => false
  | .other => true

/-- Default for `global_rescale_scale` (lines 26-31 of `_scaling.py`):
dataset force RMS if the model outputs forces, else dataset total-energy
standard deviation. -/
def globalScaleDefault (irrepsOut : List String) : CVal :=
  .str (if FORCE_KEY ∈ irrepsOut then "dataset_" ++ FORCE_KEY ++ "_rms"
        else "dataset_" ++ TOTAL_ENERGY_KEY ++ "_std")

/-- `global_scale` as read by `RescaleEnergyEtc` (lines 26-31). -/
def globalRescaleScale (c : Config) (irrepsOut : List String) : CVal :=
  cfgGet c "global_rescale_scale" (globalScaleDefault irrepsOut)

/-- `global_shift` as read by `RescaleEnergyEtc` (line 32). -/
def globalRescaleShift (c : Config) : CVal := cfgGet c "global_rescale_shift" .noneV

def RESCALE_THRESHOLD : ℚ := 1 / 1000000

inductive ScaleErr where
  | lowGlobal : ℚ → ScaleErr
  | lowPerSpecies : List ℚ → ScaleErr
deriving DecidableEq

/-- The resolved-global-scale threshold check of `RescaleEnergyEtc`
(lines 72-75 of `_scaling.py`): a non-absent resolved scale below
`RESCALE_THRESHOLD` raises a `ValueError` naming the value. -/
def globalScaleCheck (v : Option ℚ) : Except ScaleErr Unit :=
  match v with
  | none => .ok ()
  | some q => if q < RESCALE_THRESHOLD then .error (.lowGlobal q) else .ok ()

/-- `torch.min` over a nonempty tensor, `none` on an empty one. -/
def minList : List ℚ → Option ℚ
  | [] => none
  | q :: t =>
    some (match minList t with
          | none => q
          | some m => min q m)

/-- The resolved per-species-scales threshold check of `PerSpeciesRescale`
(lines 186-189 of `_scaling.py`): `torch.min(scales) < RESCALE_THRESHOLD`
raises a `ValueError` naming the scales. -/
def perSpeciesScalesCheck (v : Option (List ℚ)) : Except ScaleErr Unit :=
  match v with
  | none => .ok ()
  | some l =>
    match minList l with
    | none => .ok ()
    | some m => if m < RESCALE_THRESHOLD then .error (.lowPerSpecies l) else .ok ()

inductive UnitsErr where
  | invalidValue : UnitsErr
  | missingKey : String → UnitsErr
  | assertFailed : UnitsErr
deriving DecidableEq

/-- The type-sniffing loop of `PerSpeciesRescale` (lines 142-154): strings
are collected as statistic names; `None`, floats, lists and tensors pass;
anything else raises `ValueError`. -/
def strNameOf : CVal → Except UnitsErr (Option String)
  | .str s => .ok (some s)
  | .noneV => .ok none
  | .num _ => .ok none
  | .lst _ => .ok none
  | .strList _ => .ok none
  | .boolV _ => .error .invalidValue
  | .other => .error .invalidValue

def psModulePre : String := "per_species_rescale"

/-- `scales` and `shifts` as read by `PerSpeciesRescale` (lines 124-136),
including the `train_on_keys`-dependent default scale. -/
def perSpeciesDefaults (c : Config) : CVal × CVal :=
  let tok : List String :=
    match cfgGet c "train_on_keys" (.strList []) with
    | .strList ls => ls
    | _ => []
  (cfgGet c (psModulePre ++ "_scales")
      (.str (if FORCE_KEY ∈ tok then "dataset_" ++ FORCE_KEY ++ "_rms"
             else "dataset_per_atom_" ++ TOTAL_ENERGY_KEY ++ "_std")),
   cfgGet c (psModulePre ++ "_shifts")
      (.str ("dataset_per_atom_" ++ TOTAL_ENERGY_KEY ++ "_mean")))

/-- The `initialize=True` unit-consistency validation of
`PerSpeciesRescale` (lines 140-162 of `_scaling.py`): collect the string
values among `[scales, shifts]`; if both are dataset statistics, set
`arguments_in_dataset_units = True`; if exactly one is, evaluate
`assert config[module_prefix + "arguments_in_dataset_units"]` — note the
key is built without an underscore after the module prefix, exactly as in
the source; a missing key raises `KeyError`, a falsy value fails the
assertion.  Returns the `arguments_in_dataset_units` flag and the collected
statistic names. -/
def perSpeciesUnitsValidate (c : Config) : Except UnitsErr (Option Bool × List String) :=
  let sv := perSpeciesDefaults c
  match strNameOf sv.1, strNameOf sv.2 with
  | .error e, _ => .error e
  | .ok _, .error e => .error e
  | .ok o1, .ok o2 =>
    let strNames := [o1, o2].filterMap id
    if strNames.length = 2 then .ok (some true, strNames)
    else if strNames.length = 1 then
      match cfgLookup c (psModulePre ++ "arguments_in_dataset_units") with
      | none => .error (.missingKey (psModulePre ++ "arguments_in_dataset_units"))
      | some v => if truthy v then .ok (none, strNames) else .error .assertFailed
    else .ok (none, strNames)

/-- Python `str.split(sep)` for a single-character separator. -/
def splitChar (sep : Char) : List Char → List (List Char)
  | [] => [[]]
  | a :: rest =>
    match splitChar sep rest with
    | [] => [[]]
    | g :: gs => if a = sep then [] :: g :: gs else (a :: g) :: gs

/-- Python `sep.join(groups)` for a single-character separator. -/
def joinSep (sep : Char) : List (List Char) → List Char
  | [] => []
  | [g] => g
  | g :: gs => g ++ sep :: joinSep sep gs

def dsPre : List Char := "dataset_".toList

def psScopePre : List Char := "per_species_".toList

def paScopePre : List Char := "per_atom_".toList

/-- Outcome of parsing one statistic identifier (lines 252-265 of
`_scaling.py`): strip an optional `dataset_` prefix, then an optional
`per_species_`/`per_atom_` scope prefix, split the rest on `_`, take the
last component as the stat and rejoin the others as the field. -/
structure ParsedStat where
  field : List Char
  scope : List Char
  stat : List Char
deriving DecidableEq

def parseStatName (name : List Char) : ParsedStat :=
  let n1 := if dsPre.isPrefixOf name then name.drop dsPre.length else name
  let pr : List Char × List Char :=
    if psScopePre.isPrefixOf n1 then (psScopePre, n1.drop psScopePre.length)
    else if paScopePre.isPrefixOf n1 then (paScopePre, n1.drop paScopePre.length)
    else ([], n1)
  let comps := splitChar '_' pr.2
  { field := joinSep '_' comps.dropLast, scope := pr.1, stat := comps.getLastD [] }

def msCore : List Char := "mean_std".toList

def rmsCore : List Char := "rms".toList

def meanStat : List Char := "mean".toList

def stdStat : List Char := "std".toList

/-- Lines 266-273: `mean` and `std` normalize to the `mean_std` aggregation
core, `rms` stays `rms`; any other trailing stat raises `ValueError`. -/
def statCoreOf (stat : List Char) : Option (List Char) :=
  if stat = meanStat ∨ stat = stdStat then some msCore
  else if stat = rmsCore then some rmsCore
  else none

/-- Line 248/285: `tuple_id_map = dict(mean=0, std=1, rms=0)`. -/
def tupleIdOf (stat : List Char) : ℕ := if stat = stdStat then 1 else 0

/-- Accumulated resolver state: the deduplicated request lists
(`stat_fields`, `stat_modes`, keyed by `stat_strs`) plus, per original
identifier, the request index (`ids`) and tuple slot (`tuple_ids`). -/
structure StatState where
  statFields : List (List Char)
  statModes : List (List Char)
  statStrs : List (List Char)
  ids : List ℕ
  tupleIds : List ℕ
deriving DecidableEq

inductive StatErr where
  | badStat : List Char → StatErr
deriving DecidableEq

/-- Python `list.index`: position of the first occurrence. -/
def listIdxOf (x : List Char) : List (List Char) → ℕ
  | [] => 0
  | y :: t => if y = x then 0 else listIdxOf x t + 1

/-- One iteration of the parsing loop of `_compute_stats`
(lines 250-285 of `_scaling.py`). -/
def statStep (st : StatState) (name : List Char) : Except StatErr StatState :=
  let pd := parseStatName name
  match statCoreOf pd.stat with
  | none => .error (.badStat pd.stat)
  | some core =>
    let mode := pd.scope ++ core
    let sstr := pd.field ++ (pd.scope ++ core)
    let st1 :=
      if sstr ∈ st.statStrs then
        { st with ids := st.ids ++ [listIdxOf sstr st.statStrs] }
      else
        { st with ids := st.ids ++ [st.statStrs.length],
                  statStrs := st.statStrs ++ [sstr],
                  statModes := st.statModes ++ [mode],
                  statFields := st.statFields ++ [pd.field] }
    .ok { st1 with tupleIds := st1.tupleIds ++ [tupleIdOf pd.stat] }

def runStatsAux : StatState → List (List Char) → Except StatErr StatState
  | st, [] => .ok st
  | st, n :: rest =>
    match statStep st n with
    | .error e => .error e
    | .ok st' => runStatsAux st' rest

def initStatState : StatState := ⟨[], [], [], [], []⟩

/-- The request-building phase of `_compute_stats` over the whole
`str_names` list. -/
def computeStatsRequests (strNames : List (List Char)) : Except StatErr StatState :=
  runStatsAux initStatState strNames

/-- Slot selection `values[idx][tuple_ids[i]]`: slot 0 is the primary value
(mean/rms), slot 1 the secondary (std). -/
def slotOf (t : ℕ) (p : ℚ × ℚ) : ℚ := if t = 1 then p.2 else p.1

def selectStats (st : StatState) (vals : List (ℚ × ℚ)) : List ℚ :=
  (st.ids.zip st.tupleIds).map (fun p => slotOf p.2 (vals.getD p.1 (0, 0)))

/-- `_compute_stats` (lines 227-293 of `_scaling.py`): build deduplicated
requests, call `dataset.statistics` once on them, and map each original
identifier to its request's result tuple slot.  The backend is abstract;
the `stride` and per-species `kwargs` arguments are forwarded to it
verbatim in the source and do not affect request identity or slot mapping,
so they are absorbed into the backend parameter here. -/
def computeStats (backend : List (List Char) → List (List Char) → List (ℚ × ℚ))
    (strNames : List (List Char)) : Except StatErr (List ℚ) :=
  match computeStatsRequests strNames with
  | .error e => .error e
  | .ok st => .ok (selectStats st (backend st.statFields st.statModes))

/-! ## General helper lemmas -/

instance {ε α : Type} [DecidableEq ε] [DecidableEq α] : DecidableEq (Except ε α) := fun a b =>
  match a, b with
  | .error e, .error e' =>
    if h : e = e' then .isTrue (by rw [h]) else .isFalse (by simp [h])
  | .ok x, .ok y =>
    if h : x = y then .isTrue (by rw [h]) else .isFalse (by simp [h])
  | .error _, .ok _ => .isFalse (by simp)
  | .ok _, .error _ => .isFalse (by simp)

theorem getD_map {α β : Type} (f : α → β) (l : List α) (i : ℕ) (d : β) (d' : α)
    (hi : i < l.length) : (l.map f).getD i d = f (l.getD i d') := by
  rw [List.getD_eq_getElem _ _ (by simpa using hi), List.getD_eq_getElem _ _ hi,
    List.getElem_map]

theorem getD_zipWith {α β γ : Type} (f : α → β → γ) (l1 : List α) (l2 : List β) (i : ℕ)
    (d : γ) (d1 : α) (d2 : β) (h1 : i < l1.length) (h2 : i < l2.length) :
    (List.zipWith f l1 l2).getD i d = f (l1.getD i d1) (l2.getD i d2) := by
  rw [List.getD_eq_getElem _ _ (by simp [List.length_zipWith]; omega),
    List.getD_eq_getElem _ _ h1, List.getD_eq_getElem _ _ h2, List.getElem_zipWith]

theorem getD_range (i n : ℕ) (h : i < n) : (List.range n).getD i 0 = i := by
  rw [List.getD_eq_getElem _ _ (by simpa using h), List.getElem_range]

theorem refHasNan_pure (t : List (List ℚ)) :
    refHasNan (t.map (fun row => row.map RVal.val)) = false := by
  simp [refHasNan, List.any_map, Function.comp_def]

/-! ## Claim theorems -/

/-- Claim C9: `PerAtomLoss.__call__` fails with the configuration error
naming the key whenever the key is not registered as a graph-level field,
for any tensor contents, and never raises this error on registered
graph-level keys. -/
theorem perAtomLoss_requires_graph_field (cfg : LossCfg) (gf : List String) (key : String)
    (pred : List (List ℚ)) (ref : List (List RVal)) (batch : List ℕ) (mean : Bool) :
    (key ∉ gf → perAtomCall cfg gf key pred ref batch mean = .error (.notGraphField key)) ∧
    (key ∈ gf → ∃ out, perAtomCall cfg gf key pred ref batch mean = .ok out) := by
  constructor
  · intro h
    simp [perAtomCall, h]
  · intro h
    simp only [perAtomCall, if_pos h]
    split <;> exact ⟨_, rfl⟩

theorem perAtomLoss_requires_graph_field_witness :
    perAtomCall ⟨"MSELoss", fun p r => (p - r) ^ 2, false⟩ ["total_energy"] "forces"
        [] [] [] true = .error (.notGraphField "forces") ∧
    ∃ out, perAtomCall ⟨"MSELoss", fun p r => (p - r) ^ 2, false⟩ ["total_energy"]
        "total_energy" [] [] [] true = .ok out :=
  ⟨(perAtomLoss_requires_graph_field _ _ _ _ _ _ _).1 (by decide),
   (perAtomLoss_requires_graph_field _ _ _ _ _ _ _).2 (by decide)⟩

/-- Claim C10: when the reference tensor contains no NaN entry, each of the
three loss evaluators returns the same result with `ignore_nan=True` as
with `ignore_nan=False`: the masking branch is only taken when a NaN is
actually present. -/
theorem ignoreNan_noop_without_nan (fn : String) (f : ℚ → ℚ → ℚ)
    (pred : List (List ℚ)) (ref : List (List RVal)) (mean : Bool)
    (gf : List String) (key : String) (batch : List ℕ) (spe : List ℕ)
    (h : refHasNan ref = false) :
    simpleLossCall ⟨fn, f, true⟩ pred ref mean = simpleLossCall ⟨fn, f, false⟩ pred ref mean ∧
    perAtomCall ⟨fn, f, true⟩ gf key pred ref batch mean
      = perAtomCall ⟨fn, f, false⟩ gf key pred ref batch mean ∧
    perSpeciesCall ⟨fn, f, true⟩ pred ref spe mean
      = perSpeciesCall ⟨fn, f, false⟩ pred ref spe mean := by
  refine ⟨?_, ?_, ?_⟩ <;> simp [simpleLossCall, perAtomCall, perSpeciesCall, h]

theorem ignoreNan_noop_without_nan_witness :
    refHasNan [[RVal.val 1]] = false ∧
    simpleLossCall ⟨"MSELoss", fun p r => (p - r) ^ 2, true⟩ [[2]] [[RVal.val 1]] true
      = simpleLossCall ⟨"MSELoss", fun p r => (p - r) ^ 2, false⟩ [[2]] [[RVal.val 1]] true :=
  ⟨rfl, (ignoreNan_noop_without_nan "MSELoss" (fun p r => (p - r) ^ 2) [[2]] [[RVal.val 1]]
    true ["e"] "e" [0] [0] rfl).1⟩

/-- Claim C8 counterexample: `find_loss_function` given a class object does
NOT raise an error (as the claim's case split would require for a
non-string, non-(callable-non-class) argument); it constructs a
`SimpleLoss` from the class (`elif inspect.isclass(name): return
SimpleLoss(name, params)`, lines 194-195 of `_loss.py`). -/
theorem findLossFunction_class_not_error :
    findLossFunction .classA = .ok .simpleOfClass := rfl

/-- Claim C8 (amended): prefixed names construct the matching wrapper on
the prefix-stripped base name, unprefixed strings construct `SimpleLoss`
on the whole name, a class argument constructs `SimpleLoss` from the
class, a callable non-class argument is returned unchanged, and anything
else raises `NotImplementedError`. -/
theorem findLossFunction_dispatch (s : String) :
    (lowerStartsWith s "perspecies" = true →
        findLossFunction (.strA s) = .ok (.perSpeciesW (s.drop 10))) ∧
    (lowerStartsWith s "perspecies" = false → lowerStartsWith s "peratom" = true →
        findLossFunction (.strA s) = .ok (.perAtomW (s.drop 7))) ∧
    (lowerStartsWith s "perspecies" = false → lowerStartsWith s "peratom" = false →
        findLossFunction (.strA s) = .ok (.simpleW s)) ∧
    findLossFunction .classA = .ok .simpleOfClass ∧
    findLossFunction .callableA = .ok .passthrough ∧
    findLossFunction .otherA = .error .notImplementedName := by
  refine ⟨?_, ?_, ?_, rfl, rfl, rfl⟩ <;> intros <;> simp [findLossFunction, *]

theorem findLossFunction_dispatch_witness :
    findLossFunction (.strA "PerSpeciesMAELoss") = .ok (.perSpeciesW "MAELoss") ∧
    findLossFunction (.strA "MSELoss") = .ok (.simpleW "MSELoss") :=
  ⟨((findLossFunction_dispatch "PerSpeciesMAELoss").1 (by decide)).trans (by decide),
   (findLossFunction_dispatch "MSELoss").2.2.1 (by decide) (by decide)⟩

/-- Claim C5: a resolved non-absent scale strictly below `1e-6` makes both
the global check (`RescaleEnergyEtc`, lines 72-75) and the per-species
check (`PerSpeciesRescale`, lines 186-189, via the minimum across species)
fail with errors naming the offending values, while values at or above the
threshold pass. -/
theorem rescale_threshold_check (v : ℚ) (l : List ℚ) (m : ℚ) (hm : minList l = some m) :
    (v < RESCALE_THRESHOLD → globalScaleCheck (some v) = .error (.lowGlobal v)) ∧
    (RESCALE_THRESHOLD ≤ v → globalScaleCheck (some v) = .ok ()) ∧
    (m < RESCALE_THRESHOLD → perSpeciesScalesCheck (some l) = .error (.lowPerSpecies l)) ∧
    (RESCALE_THRESHOLD ≤ m → perSpeciesScalesCheck (some l) = .ok ()) := by
  refine ⟨fun h => ?_, fun h => ?_, fun h => ?_, fun h => ?_⟩
  · simp [globalScaleCheck, h]
  · simp [globalScaleCheck, not_lt.2 h]
  · simp [perSpeciesScalesCheck, hm, h]
  · simp [perSpeciesScalesCheck, hm, not_lt.2 h]

theorem rescale_threshold_check_witness :
    globalScaleCheck (some 0) = .error (.lowGlobal 0) ∧
    globalScaleCheck (some RESCALE_THRESHOLD) = .ok () ∧
    perSpeciesScalesCheck (some [0, 1]) = .error (.lowPerSpecies [0, 1]) ∧
    perSpeciesScalesCheck (some [1]) = .ok () :=
  ⟨(rescale_threshold_check 0 [1] 1 rfl).1 (by norm_num [RESCALE_THRESHOLD]),
   (rescale_threshold_check RESCALE_THRESHOLD [1] 1 rfl).2.1 le_rfl,
   (rescale_threshold_check 0 [0, 1] 0 (by norm_num [minList])).2.2.1
     (by norm_num [RESCALE_THRESHOLD]),
   (rescale_threshold_check 0 [1] 1 rfl).2.2.2 (by norm_num [RESCALE_THRESHOLD])⟩

/-- Claim C7: with `global_rescale_scale` absent from the configuration,
`RescaleEnergyEtc` defaults the global scale to the dataset force RMS
statistic identifier when the model outputs forces and to the dataset
total-energy standard deviation identifier otherwise; the default global
shift is `None`. -/
theorem globalRescale_default_policy (c : Config) (irrepsOut : List String)
    (hs : cfgLookup c "global_rescale_scale" = none)
    (hh : cfgLookup c "global_rescale_shift" = none) :
    (FORCE_KEY ∈ irrepsOut →
      globalRescaleScale c irrepsOut = .str ("dataset_" ++ FORCE_KEY ++ "_rms")) ∧
    (FORCE_KEY ∉ irrepsOut →
      globalRescaleScale c irrepsOut = .str ("dataset_" ++ TOTAL_ENERGY_KEY ++ "_std")) ∧
    globalRescaleShift c = .noneV := by
  refine ⟨fun h => ?_, fun h => ?_, ?_⟩
  · simp [globalRescaleScale, globalScaleDefault, cfgGet, hs, h]
  · simp [globalRescaleScale, globalScaleDefault, cfgGet, hs, h]
  · simp [globalRescaleShift, cfgGet, hh]

theorem globalRescale_default_policy_witness :
    globalRescaleScale [] ["forces"] = .str "dataset_forces_rms" ∧
    globalRescaleScale [] ["total_energy"] = .str "dataset_total_energy_std" ∧
    globalRescaleShift [] = .noneV :=
  ⟨((globalRescale_default_policy [] ["forces"] rfl rfl).1 (by decide)).trans (by decide),
   ((globalRescale_default_policy [] ["total_energy"] rfl rfl).2.1 (by decide)).trans
     (by decide),
   (globalRescale_default_policy [] ["forces"] rfl rfl).2.2⟩

/-- A configuration for `PerSpeciesRescale` in which exactly one of
scales/shifts is a dataset statistic string (the scales), the other is an
explicit float, and the documented declaration key
`per_species_rescale_arguments_in_dataset_units` is set to `True`. -/
def cfgUnitsDeclared : Config :=
  [(psModulePre ++ "_scales", .str ("dataset_" ++ FORCE_KEY ++ "_rms")),
   (psModulePre ++ "_shifts", .num 0),
   (psModulePre ++ "_arguments_in_dataset_units", .boolV true)]

/-- Claim C1: the code builds the declaration key as
`module_prefix + "arguments_in_dataset_units"` — without the underscore —
so even a configuration that does declare
`per_species_rescale_arguments_in_dataset_units = True` (as the code's own
assertion message and the spec instruct) still fails, with a `KeyError` on
the misspelled key.  When both scales and shifts are dataset-derived
strings (the all-defaults configuration), no declaration is consulted and
`arguments_in_dataset_units` is set to `True`, as claimed. -/
theorem perSpeciesRescale_units_key_mismatch :
    cfgLookup cfgUnitsDeclared (psModulePre ++ "_arguments_in_dataset_units")
      = some (.boolV true) ∧
    perSpeciesUnitsValidate cfgUnitsDeclared
      = .error (.missingKey "per_species_rescalearguments_in_dataset_units") ∧
    perSpeciesUnitsValidate [] =
      .ok (some true, ["dataset_per_atom_" ++ TOTAL_ENERGY_KEY ++ "_std",
                       "dataset_per_atom_" ++ TOTAL_ENERGY_KEY ++ "_mean"]) :=
  ⟨rfl, rfl, rfl⟩

/-- Per-species sum of masked per-atom losses over atoms with species
label `s` (claim C2's numerator). -/
def speciesMaskedSum (f : ℚ → ℚ → ℚ) (pred : List (List ℚ)) (ref : List (List RVal))
    (spe : List ℕ) (s : ℕ) : ℚ :=
  (((spe.zip ((tensorMaskedLoss f pred ref).map List.sum)).filter
      (fun p => p.1 == s)).map Prod.snd).sum

/-- Number of valid (non-NaN) reference atoms with species label `s`. -/
def speciesValidCount (ref : List (List RVal)) (spe : List ℕ) (s : ℕ) : ℕ :=
  (((spe.zip (ref.map (fun row => (row.map notNanB).sum))).filter
      (fun p => p.1 == s)).map Prod.snd).sum

/-- The value claim C2 prescribes for the NaN-masked `PerSpeciesLoss`: the
sum over species with at least one valid atom of (masked per-atom loss sum
divided by that species' valid-atom count), divided by the number of such
species. -/
def claimedNanPerSpecies (f : ℚ → ℚ → ℚ) (pred : List (List ℚ)) (ref : List (List RVal))
    (spe : List ℕ) : ℚ :=
  let good := spe.dedup.filter (fun s => 0 < speciesValidCount ref spe s)
  ((good.map (fun s =>
      speciesMaskedSum f pred ref spe s / (speciesValidCount ref spe s : ℚ))).sum)
    / (good.length : ℚ)

/-- Claim C2: on a batch with two atoms of species 0 and 1 whose reference
values are `[NaN, 1.0]` and predictions `[0, 0]`, species 0 has zero valid
atoms.  The claim prescribes the finite value `((0-1)^2/1)/1 = 1`
(species 0 excluded from the denominator).  The code instead computes
`reciprocal` of the integer count tensor `[0, 1]`, giving `[+inf, 1.0]`;
the `N == N` filter keeps `+inf` (IEEE `inf == inf` is true, only NaN
fails self-equality), so `N_species = 2`, and the per-species product
contributes `0.0 * inf = NaN`, making the returned scalar NaN. -/
theorem perSpeciesLoss_empty_valid_group_nan :
    perSpeciesCall ⟨"MSELoss", fun p r => (p - r) ^ 2, true⟩ [[0], [0]]
      [[RVal.nan], [RVal.val 1]] [0, 1] true = .ok FVal.nanF ∧
    claimedNanPerSpecies (fun p r => (p - r) ^ 2) [[0], [0]]
      [[RVal.nan], [RVal.val 1]] [0, 1] = 1 ∧
    FVal.nanF ≠ FVal.valF 1 := by
  refine ⟨?_, ?_, by decide⟩
  · norm_num [perSpeciesCall, tensorMaskedLoss, maskedEntry, nanToNum0, notNanB, refHasNan,
      scatterSum, dimSize, recipCount, mulQF, FVal.sumL, FVal.add, FVal.divCnt, ieeeSelfEq,
      RVal.isNan, List.range_succ]
  · norm_num [claimedNanPerSpecies, speciesMaskedSum, speciesValidCount, tensorMaskedLoss,
      maskedEntry, nanToNum0, notNanB, RVal.isNan]

theorem length_tensorLossR (f : ℚ → ℚ → ℚ) (pred : List (List ℚ)) (ref : List (List RVal)) :
    (tensorLossR f pred ref).length = min pred.length ref.length := by
  simp [tensorLossR]

theorem tensorLossR_row (f : ℚ → ℚ → ℚ) (pred : List (List ℚ)) (ref : List (List RVal))
    (g : ℕ) (h1 : g < pred.length) (h2 : g < ref.length) :
    (tensorLossR f pred ref).getD g [] =
      List.zipWith (lossEntryR f) (pred.getD g []) (ref.getD g []) :=
  getD_zipWith _ pred ref g [] [] [] h1 h2

theorem length_divRowsByN (t : List (List RVal)) (N : List ℕ) :
    (divRowsByN t N).length = min t.length N.length := by
  simp [divRowsByN]

theorem divRowsByN_row (t : List (List RVal)) (N : List ℕ) (g : ℕ)
    (h1 : g < t.length) (h2 : g < N.length) :
    (divRowsByN t N).getD g [] =
      (t.getD g []).map (fun x => RVal.divCnt x (N.getD g 0)) :=
  getD_zipWith _ t N g [] [] 0 h1 h2

theorem length_bincount (batch : List ℕ) : (bincount batch).length = dimSize batch := by
  simp [bincount]

theorem bincount_getD (batch : List ℕ) (g : ℕ) (h : g < dimSize batch) :
    (bincount batch).getD g 0 = countOf batch g := by
  unfold bincount
  rw [getD_map (countOf batch) _ g 0 0 (by simpa using h), getD_range g _ h]

theorem pureRef_row (refQ : List (List ℚ)) (g : ℕ) (h : g < refQ.length) :
    (refQ.map (fun row => row.map RVal.val)).getD g [] = (refQ.getD g []).map RVal.val :=
  getD_map _ refQ g [] [] h

theorem length_tensorMaskedLoss (f : ℚ → ℚ → ℚ) (pred : List (List ℚ))
    (ref : List (List RVal)) :
    (tensorMaskedLoss f pred ref).length = min pred.length ref.length := by
  simp [tensorMaskedLoss]

theorem tensorMaskedLoss_row (f : ℚ → ℚ → ℚ) (pred : List (List ℚ)) (ref : List (List RVal))
    (g : ℕ) (h1 : g < pred.length) (h2 : g < ref.length) :
    (tensorMaskedLoss f pred ref).getD g [] =
      List.zipWith (maskedEntry f) (pred.getD g []) (ref.getD g []) :=
  getD_zipWith _ pred ref g [] [] [] h1 h2

/-- The per-entry loss value `PerAtomLoss` computes before any division:
the masked elementwise loss on the NaN branch, the raw elementwise loss
otherwise. -/
def perAtomBase (cfg : LossCfg) (ref : List (List RVal)) (p : ℚ) (r : RVal) : RVal :=
  if cfg.ignoreNan && refHasNan ref then RVal.val (maskedEntry cfg.func p r)
  else lossEntryR cfg.func p r

/-- Claim C3: on a graph-level key, `PerAtomLoss` divides each graph's
per-entry loss by that graph's atom count once, and — exactly when the
configured elementwise function name is `"MSELoss"` — a second time, so
squared-error entries are divided by `N²` (lines 88-92 and 99-102 of
`_loss.py`, both branches). -/
theorem perAtomLoss_mse_double_division (cfg : LossCfg) (gf : List String) (key : String)
    (pred : List (List ℚ)) (ref : List (List RVal)) (batch : List ℕ) (g j : ℕ)
    (hkey : key ∈ gf)
    (hgp : g < pred.length) (hgr : g < ref.length) (hgN : g < dimSize batch)
    (hjp : j < (pred.getD g []).length) (hjr : j < (ref.getD g []).length) :
    ∃ T, perAtomCall cfg gf key pred ref batch false = .ok (.tens T) ∧
      (T.getD g []).getD j RVal.nan =
        (if cfg.funcName = "MSELoss" then
          RVal.divCnt (RVal.divCnt
            (perAtomBase cfg ref ((pred.getD g []).getD j 0) ((ref.getD g []).getD j RVal.nan))
            (countOf batch g)) (countOf batch g)
        else
          RVal.divCnt
            (perAtomBase cfg ref ((pred.getD g []).getD j 0) ((ref.getD g []).getD j RVal.nan))
            (countOf batch g)) := by
  have hN : (bincount batch).getD g 0 = countOf batch g := bincount_getD batch g hgN
  have hNlen : g < (bincount batch).length := by
    rw [length_bincount]
    exact hgN
  rcases hnan : cfg.ignoreNan && refHasNan ref with _ | _
  · have hg0 : g < (tensorLossR cfg.func pred ref).length := by
      rw [length_tensorLossR]
      omega
    have hrow : (tensorLossR cfg.func pred ref).getD g []
        = List.zipWith (lossEntryR cfg.func) (pred.getD g []) (ref.getD g []) :=
      tensorLossR_row _ _ _ g hgp hgr
    have hjrow : j < ((tensorLossR cfg.func pred ref).getD g []).length := by
      rw [hrow]
      simp only [List.length_zipWith]
      omega
    have hg1 : g < (divRowsByN (tensorLossR cfg.func pred ref) (bincount batch)).length := by
      rw [length_divRowsByN, length_bincount]
      omega
    have hj1 : j < ((divRowsByN (tensorLossR cfg.func pred ref)
        (bincount batch)).getD g []).length := by
      rw [divRowsByN_row _ _ g hg0 hNlen]
      simpa using hjrow
    have hentry : ((tensorLossR cfg.func pred ref).getD g []).getD j RVal.nan
        = perAtomBase cfg ref ((pred.getD g []).getD j 0) ((ref.getD g []).getD j RVal.nan) := by
      rw [hrow, getD_zipWith (lossEntryR cfg.func) (pred.getD g []) (ref.getD g [])
        j RVal.nan 0 RVal.nan hjp hjr, perAtomBase, hnan]
      rfl
    simp only [perAtomCall, if_pos hkey, hnan, Bool.false_eq_true, if_neg, ite_false]
    by_cases hf : cfg.funcName = "MSELoss"
    · refine ⟨_, by rw [if_pos hf], ?_⟩
      rw [if_pos hf,
        divRowsByN_row (divRowsByN (tensorLossR cfg.func pred ref) (bincount batch))
          (bincount batch) g hg1 hNlen,
        getD_map (fun x => RVal.divCnt x ((bincount batch).getD g 0))
          ((divRowsByN (tensorLossR cfg.func pred ref) (bincount batch)).getD g [])
          j RVal.nan RVal.nan hj1,
        divRowsByN_row (tensorLossR cfg.func pred ref) (bincount batch) g hg0 hNlen,
        getD_map (fun x => RVal.divCnt x ((bincount batch).getD g 0))
          ((tensorLossR cfg.func pred ref).getD g []) j RVal.nan RVal.nan hjrow,
        hentry, hN]
    · refine ⟨_, by rw [if_neg hf], ?_⟩
      rw [if_neg hf,
        divRowsByN_row (tensorLossR cfg.func pred ref) (bincount batch) g hg0 hNlen,
        getD_map (fun x => RVal.divCnt x ((bincount batch).getD g 0))
          ((tensorLossR cfg.func pred ref).getD g []) j RVal.nan RVal.nan hjrow,
        hentry, hN]
  · have hg0 : g < ((tensorMaskedLoss cfg.func pred ref).map
        (fun row => row.map RVal.val)).length := by
      rw [List.length_map, length_tensorMaskedLoss]
      omega
    have hrow : ((tensorMaskedLoss cfg.func pred ref).map
          (fun row => row.map RVal.val)).getD g []
        = (List.zipWith (maskedEntry cfg.func) (pred.getD g []) (ref.getD g [])).map
            RVal.val := by
      rw [getD_map (fun row => row.map RVal.val) (tensorMaskedLoss cfg.func pred ref)
          g [] [] (by rw [length_tensorMaskedLoss]; omega),
        tensorMaskedLoss_row _ _ _ g hgp hgr]
    have hjrow : j < (((tensorMaskedLoss cfg.func pred ref).map
        (fun row => row.map RVal.val)).getD g []).length := by
      rw [hrow]
      simp only [List.length_map, List.length_zipWith]
      omega
    have hg1 : g < (divRowsByN ((tensorMaskedLoss cfg.func pred ref).map
        (fun row => row.map RVal.val)) (bincount batch)).length := by
      rw [length_divRowsByN]
      omega
    have hj1 : j < ((divRowsByN ((tensorMaskedLoss cfg.func pred ref).map
        (fun row => row.map RVal.val)) (bincount batch)).getD g []).length := by
      rw [divRowsByN_row _ _ g hg0 hNlen]
      simpa using hjrow
    have hentry : (((tensorMaskedLoss cfg.func pred ref).map
          (fun row => row.map RVal.val)).getD g []).getD j RVal.nan
        = perAtomBase cfg ref ((pred.getD g []).getD j 0) ((ref.getD g []).getD j RVal.nan) := by
      rw [hrow,
        getD_map RVal.val (List.zipWith (maskedEntry cfg.func) (pred.getD g [])
          (ref.getD g [])) j RVal.nan 0 (by simp only [List.length_zipWith]; omega),
        getD_zipWith (maskedEntry cfg.func) (pred.getD g []) (ref.getD g [])
          j 0 0 RVal.nan hjp hjr, perAtomBase, hnan]
      rfl
    simp only [perAtomCall, if_pos hkey, hnan, Bool.false_eq_true, if_neg, ite_true,
      ite_false]
    by_cases hf : cfg.funcName = "MSELoss"
    · refine ⟨_, by rw [if_pos hf], ?_⟩
      rw [if_pos hf,
        divRowsByN_row (divRowsByN ((tensorMaskedLoss cfg.func pred ref).map
            (fun row => row.map RVal.val)) (bincount batch))
          (bincount batch) g hg1 hNlen,
        getD_map (fun x => RVal.divCnt x ((bincount batch).getD g 0))
          ((divRowsByN ((tensorMaskedLoss cfg.func pred ref).map
            (fun row => row.map RVal.val)) (bincount batch)).getD g [])
          j RVal.nan RVal.nan hj1,
        divRowsByN_row ((tensorMaskedLoss cfg.func pred ref).map
            (fun row => row.map RVal.val)) (bincount batch) g hg0 hNlen,
        getD_map (fun x => RVal.divCnt x ((bincount batch).getD g 0))
          (((tensorMaskedLoss cfg.func pred ref).map
            (fun row => row.map RVal.val)).getD g []) j RVal.nan RVal.nan hjrow,
        hentry, hN]
    · refine ⟨_, by rw [if_neg hf], ?_⟩
      rw [if_neg hf,
        divRowsByN_row ((tensorMaskedLoss cfg.func pred ref).map
            (fun row => row.map RVal.val)) (bincount batch) g hg0 hNlen,
        getD_map (fun x => RVal.divCnt x ((bincount batch).getD g 0))
          (((tensorMaskedLoss cfg.func pred ref).map
            (fun row => row.map RVal.val)).getD g []) j RVal.nan RVal.nan hjrow,
        hentry, hN]

theorem perAtomLoss_mse_double_division_witness :
    ∃ T, perAtomCall ⟨"MSELoss", fun p r => (p - r) ^ 2, false⟩ ["e"] "e"
        [[6], [9]] [[RVal.val 2], [RVal.val 3]] [0, 0, 1, 1, 1] false
        = .ok (.tens T) ∧
      (T.getD 0 []).getD 0 RVal.nan = .val 4 ∧ (T.getD 1 []).getD 0 RVal.nan = .val 4 := by
  obtain ⟨T, hT, h0⟩ :=
    perAtomLoss_mse_double_division ⟨"MSELoss", fun p r => (p - r) ^ 2, false⟩
      ["e"] "e" [[6], [9]] [[RVal.val 2], [RVal.val 3]] [0, 0, 1, 1, 1] 0 0 (by decide)
      (by decide) (by decide) (by decide) (by decide) (by decide)
  obtain ⟨T', hT', h1⟩ :=
    perAtomLoss_mse_double_division ⟨"MSELoss", fun p r => (p - r) ^ 2, false⟩
      ["e"] "e" [[6], [9]] [[RVal.val 2], [RVal.val 3]] [0, 0, 1, 1, 1] 1 0 (by decide)
      (by decide) (by decide) (by decide) (by decide) (by decide)
  rw [hT] at hT'
  injection hT' with hTT
  injection hTT with hTT2
  subst hTT2
  refine ⟨T, hT, ?_, ?_⟩
  · rw [h0]
    norm_num [countOf, RVal.divCnt, perAtomBase, refHasNan, RVal.isNan, lossEntryR,
      List.getD_cons_zero]
  · rw [h1]
    norm_num [countOf, RVal.divCnt, perAtomBase, refHasNan, RVal.isNan, lossEntryR,
      List.getD_cons_zero, List.getD_cons_succ]

theorem sumL_pure (qs : List ℚ) : RVal.sumL (qs.map RVal.val) = .val qs.sum := by
  induction qs with
  | nil => rfl
  | cons a t ih =>
    simp [RVal.sumL, List.foldr] at ih ⊢
    rw [ih]
    rfl

theorem rowLoss_pure (f : ℚ → ℚ → ℚ) (ps rs : List ℚ) :
    List.zipWith (lossEntryR f) ps (rs.map RVal.val) = (List.zipWith f ps rs).map RVal.val := by
  rw [List.zipWith_map_right, List.map_zipWith]
  rfl

theorem rowMeanR_pure (qs : List ℚ) (h : qs ≠ []) :
    rowMeanR (qs.map RVal.val) = .val (qs.sum / (qs.length : ℚ)) := by
  unfold rowMeanR
  rw [sumL_pure]
  simp [RVal.divCnt, List.length_eq_zero, h]

/-- The per-atom loss vector the spec speaks about: the feature-axis mean
of the elementwise losses, one entry per atom. -/
def perAtomLossVec (f : ℚ → ℚ → ℚ) (pred refQ : List (List ℚ)) : List ℚ :=
  List.zipWith
    (fun ps rs => (List.zipWith f ps rs).sum / ((List.zipWith f ps rs).length : ℚ))
    pred refQ

/-- Per-atom losses of the atoms carrying species label `s`. -/
def speciesGroupQ (spe : List ℕ) (pal : List ℚ) (s : ℕ) : List ℚ :=
  ((spe.zip pal).filter (fun p => p.1 == s)).map Prod.snd

/-- Mean per-atom loss of species `s`. -/
def speciesMeanOf (spe : List ℕ) (pal : List ℚ) (s : ℕ) : ℚ :=
  (speciesGroupQ spe pal s).sum / ((speciesGroupQ spe pal s).length : ℚ)

/-- Stated from claim C6's words: the unweighted mean, over the distinct
species labels present in the batch, of each species' mean per-atom
loss. -/
def specPerSpeciesMean (spe : List ℕ) (pal : List ℚ) : ℚ :=
  ((spe.dedup.map (speciesMeanOf spe pal)).sum) / ((spe.dedup.length : ℚ))

theorem palR_pure (f : ℚ → ℚ → ℚ) (pred refQ : List (List ℚ))
    (hl : pred.length = refQ.length)
    (hrows : ∀ i, i < pred.length → (pred.getD i []).length = (refQ.getD i []).length
        ∧ (refQ.getD i []).length ≠ 0) :
    (tensorLossR f pred (refQ.map (fun row => row.map RVal.val))).map rowMeanR
      = (perAtomLossVec f pred refQ).map RVal.val := by
  apply List.ext_getElem
  · simp [tensorLossR, perAtomLossVec, hl]
  · intro i h1 h2
    have hi : i < pred.length := by
      simp only [List.length_map, tensorLossR, List.length_zipWith] at h1
      omega
    have hir : i < refQ.length := by omega
    obtain ⟨hrow1, hrow2⟩ := hrows i hi
    have hne : List.zipWith f (pred.getD i []) (refQ.getD i []) ≠ [] := by
      intro hcon
      have := congrArg List.length hcon
      simp only [List.length_zipWith, List.length_nil] at this
      omega
    rw [List.getElem_map, List.getElem_map]
    unfold tensorLossR perAtomLossVec
    rw [List.getElem_zipWith, List.getElem_zipWith, List.getElem_map]
    rw [← List.getD_eq_getElem pred [] hi, ← List.getD_eq_getElem refQ [] hir]
    rw [rowLoss_pure, rowMeanR_pure _ hne]

theorem speciesGroupQ_ne_nil (spe : List ℕ) (palQ : List ℚ) (s : ℕ)
    (hs : s ∈ spe) (hlen : palQ.length = spe.length) :
    speciesGroupQ spe palQ s ≠ [] := by
  obtain ⟨i, hi, hei⟩ := List.getElem_of_mem hs
  have hiz : i < (spe.zip palQ).length := by
    simp only [List.length_zip]
    omega
  have hz : (spe.zip palQ)[i] ∈ spe.zip palQ := List.getElem_mem hiz
  rw [List.getElem_zip] at hz
  intro hcon
  unfold speciesGroupQ at hcon
  rw [List.map_eq_nil_iff] at hcon
  have hmem : (spe[i], palQ[i]) ∈ (spe.zip palQ).filter (fun p => p.1 == s) := by
    rw [List.mem_filter]
    exact ⟨hz, by simp [hei]⟩
  rw [hcon] at hmem
  exact List.not_mem_nil _ hmem

theorem indexOf_eq_iff_of_mem (u : List ℕ) (hnd : u.Nodup) (a k : ℕ)
    (ha : a ∈ u) (hk : k < u.length) :
    u.indexOf a = k ↔ a = u.getD k 0 := by
  rw [List.getD_eq_getElem u 0 hk]
  have h1 : u.indexOf a < u.length := List.indexOf_lt_length.2 ha
  have h2 := List.getElem_indexOf h1
  constructor
  · intro he
    have hfin : (⟨u.indexOf a, h1⟩ : Fin u.length) = ⟨k, hk⟩ := Fin.ext he
    have h2' : u.get ⟨u.indexOf a, h1⟩ = a := by
      rw [List.get_eq_getElem]
      exact h2
    rw [hfin] at h2'
    rw [List.get_eq_getElem] at h2'
    exact h2'.symm
  · intro he
    exact (List.Nodup.getElem_inj_iff hnd).1 (h2.trans he)

theorem scatterMeanR_pure (spe : List ℕ) (palQ : List ℚ) (hlen : palQ.length = spe.length) :
    scatterMeanR (palQ.map RVal.val) (spe.map (fun s => (uniqueSorted spe).indexOf s))
        (uniqueSorted spe).length
      = ((uniqueSorted spe).map (speciesMeanOf spe palQ)).map RVal.val := by
  have hperm : List.Perm (uniqueSorted spe) spe.dedup := List.perm_insertionSort _ _
  have hnd : (uniqueSorted spe).Nodup := hperm.nodup_iff.2 (List.nodup_dedup spe)
  have hmemu : ∀ a, a ∈ uniqueSorted spe ↔ a ∈ spe := fun a => by
    rw [hperm.mem_iff, List.mem_dedup]
  apply List.ext_getElem
  · simp [scatterMeanR]
  · intro k h1 h2
    have hk : k < (uniqueSorted spe).length := by
      simpa [scatterMeanR] using h1
    simp only [scatterMeanR, List.getElem_map, List.getElem_range]
    rw [List.zip_map, List.filter_map]
    have hcomp1 : ((fun p : ℕ × RVal => p.1 == k) ∘
          Prod.map (fun s => (uniqueSorted spe).indexOf s) RVal.val)
        = (fun q : ℕ × ℚ => (uniqueSorted spe).indexOf q.1 == k) := rfl
    rw [hcomp1]
    have hcong : ∀ q ∈ spe.zip palQ,
        ((fun q : ℕ × ℚ => (uniqueSorted spe).indexOf q.1 == k) q)
          = ((fun q : ℕ × ℚ => q.1 == (uniqueSorted spe).getD k 0) q) := by
      intro q hq
      have hq1 : q.1 ∈ spe := (List.of_mem_zip hq).1
      have hiff := indexOf_eq_iff_of_mem (uniqueSorted spe) hnd q.1 k ((hmemu q.1).2 hq1) hk
      simp only [beq_eq_decide]
      exact decide_eq_decide.2 hiff
    rw [List.filter_congr hcong]
    have hcomp2 : (Prod.snd ∘ Prod.map (fun s => (uniqueSorted spe).indexOf s) RVal.val)
        = (RVal.val ∘ Prod.snd) := rfl
    rw [List.map_map, hcomp2, ← List.map_map]
    have hgrp : ((spe.zip palQ).filter
          (fun q : ℕ × ℚ => q.1 == (uniqueSorted spe).getD k 0)).map Prod.snd
        = speciesGroupQ spe palQ ((uniqueSorted spe).getD k 0) := rfl
    rw [hgrp, sumL_pure, List.length_map]
    have hmem : (uniqueSorted spe).getD k 0 ∈ spe := by
      rw [List.getD_eq_getElem _ 0 hk]
      exact (hmemu _).1 (List.getElem_mem hk)
    have hne := speciesGroupQ_ne_nil spe palQ _ hmem hlen
    have hne' : speciesGroupQ spe palQ ((uniqueSorted spe)[k]?.getD 0) ≠ [] := by
      simpa [List.getD] using hne
    rw [← List.getD_eq_getElem (uniqueSorted spe) 0 hk]
    simp [RVal.divCnt, List.length_eq_zero, hne, hne', speciesMeanOf]

theorem perSpeciesCall_pure_branch (cfg : LossCfg) (pred refQ : List (List ℚ))
    (spe : List ℕ) :
    perSpeciesCall cfg pred (refQ.map (fun row => row.map RVal.val)) spe true
      = .ok (toFVal (RVal.divCnt
          (RVal.sumL (scatterMeanR
            ((tensorLossR cfg.func pred (refQ.map (fun row => row.map RVal.val))).map
              rowMeanR)
            (spe.map (fun s => (uniqueSorted spe).indexOf s)) (uniqueSorted spe).length))
          (scatterMeanR
            ((tensorLossR cfg.func pred (refQ.map (fun row => row.map RVal.val))).map
              rowMeanR)
            (spe.map (fun s => (uniqueSorted spe).indexOf s))
            (uniqueSorted spe).length).length)) := by
  unfold perSpeciesCall
  rw [refHasNan_pure]
  simp

/-- Claim C6: with NaN masking inactive (finite reference values) and
`mean=True`, `PerSpeciesLoss` returns the unweighted mean, over the
distinct species labels present in the batch, of each species' mean
per-atom loss — independent of the magnitude or contiguity of the raw
labels, which lines 166-170 of `_loss.py` remap through `torch.unique`
before `scatter_mean`. -/
theorem perSpeciesLoss_equal_species_weight (fn : String) (f : ℚ → ℚ → ℚ) (ign : Bool)
    (pred refQ : List (List ℚ)) (spe : List ℕ)
    (hne : spe ≠ []) (hlp : pred.length = spe.length) (hlr : refQ.length = spe.length)
    (hrows : ∀ i, i < pred.length → (pred.getD i []).length = (refQ.getD i []).length
        ∧ (refQ.getD i []).length ≠ 0) :
    perSpeciesCall ⟨fn, f, ign⟩ pred (refQ.map (fun row => row.map RVal.val)) spe true
      = .ok (.valF (specPerSpeciesMean spe (perAtomLossVec f pred refQ))) := by
  have hlen2 : (perAtomLossVec f pred refQ).length = spe.length := by
    simp only [perAtomLossVec, List.length_zipWith]
    omega
  have hperm : List.Perm (uniqueSorted spe) spe.dedup := List.perm_insertionSort _ _
  have hul : (uniqueSorted spe).length ≠ 0 := by
    rw [hperm.length_eq, Ne, List.length_eq_zero, List.dedup_eq_nil]
    exact hne
  rw [perSpeciesCall_pure_branch]
  rw [palR_pure f pred refQ (by omega) hrows]
  rw [scatterMeanR_pure spe (perAtomLossVec f pred refQ) hlen2]
  rw [sumL_pure]
  have hsum : ((uniqueSorted spe).map (speciesMeanOf spe (perAtomLossVec f pred refQ))).sum
      = (spe.dedup.map (speciesMeanOf spe (perAtomLossVec f pred refQ))).sum :=
    (hperm.map _).sum_eq
  simp only [List.length_map, RVal.divCnt, hul, if_neg, ite_false, toFVal,
    specPerSpeciesMean, hsum, hperm.length_eq]
  simp [hul, hsum, hperm.length_eq, hne]

theorem perSpeciesLoss_equal_species_weight_witness :
    perSpeciesCall ⟨"MAELoss", fun p r => p - r, false⟩ [[1], [3], [5], [9]]
        ([[0], [0], [0], [0]].map (fun row => row.map RVal.val)) [0, 5, 5, 9] true
      = .ok (.valF (14 / 3)) := by
  have h := perSpeciesLoss_equal_species_weight "MAELoss" (fun p r => p - r) false
    [[1], [3], [5], [9]] [[0], [0], [0], [0]] [0, 5, 5, 9] (by decide) (by decide)
    (by decide) (by decide)
  rw [h]
  norm_num [specPerSpeciesMean, speciesMeanOf, speciesGroupQ, perAtomLossVec,
    List.dedup_cons_of_not_mem, List.dedup_cons_of_mem]

def scopeSet : List (List Char) := [[], psScopePre, paScopePre]

def coreSet : List (List Char) := [msCore, rmsCore]

/-- Well-formedness of a statistic identifier, phrased on the parser's
output: the trailing stat token is one of `mean`/`std`/`rms` (otherwise
the resolver raises `ValueError`), and the parsed field does not end in an
underscore (the identifier grammar
`dataset_[per_species_|per_atom_]<field>_<stat>` has no empty component
before the stat). -/
def WFStatName (name : List Char) : Prop :=
  (statCoreOf (parseStatName name).stat).isSome = true ∧
  (parseStatName name).field.getLast? ≠ some '_'

/-- The dedup key `stat_str = field + prefix + mode-core` the resolver
computes for an identifier. -/
def reqStrOf (name : List Char) : List Char :=
  (parseStatName name).field ++
    ((parseStatName name).scope ++ (statCoreOf (parseStatName name).stat).getD [])

theorem parse_scope_mem (n : List Char) : (parseStatName n).scope ∈ scopeSet := by
  simp only [parseStatName]
  split_ifs <;> simp [scopeSet]

theorem statCoreOf_mem {stat c : List Char} (h : statCoreOf stat = some c) :
    c ∈ coreSet := by
  unfold statCoreOf at h
  split_ifs at h <;> simp_all [coreSet]

theorem core_eq_of_append_eq {f1 f2 p1 p2 c1 c2 : List Char}
    (h1 : c1 ∈ coreSet) (h2 : c2 ∈ coreSet)
    (he : f1 ++ (p1 ++ c1) = f2 ++ (p2 ++ c2)) : c1 = c2 := by
  simp only [coreSet, List.mem_cons, List.mem_singleton, List.not_mem_nil, or_false] at h1 h2
  have hlast := congrArg List.getLast? he
  rcases h1 with rfl | rfl <;> rcases h2 with rfl | rfl
  · rfl
  · rw [List.getLast?_append_of_ne_nil f1 (by simp [msCore]),
      List.getLast?_append_of_ne_nil p1 (by simp [msCore]),
      List.getLast?_append_of_ne_nil f2 (by simp [rmsCore]),
      List.getLast?_append_of_ne_nil p2 (by simp [rmsCore])] at hlast
    exact absurd hlast (by decide)
  · rw [List.getLast?_append_of_ne_nil f1 (by simp [rmsCore]),
      List.getLast?_append_of_ne_nil p1 (by simp [rmsCore]),
      List.getLast?_append_of_ne_nil f2 (by simp [msCore]),
      List.getLast?_append_of_ne_nil p2 (by simp [msCore])] at hlast
    exact absurd hlast (by decide)
  · rfl

theorem scope_field_inj {f1 f2 p1 p2 : List Char}
    (h1 : p1 ∈ scopeSet) (h2 : p2 ∈ scopeSet)
    (hf1 : f1.getLast? ≠ some '_') (hf2 : f2.getLast? ≠ some '_')
    (he : f1 ++ p1 = f2 ++ p2) : f1 = f2 ∧ p1 = p2 := by
  simp only [scopeSet, List.mem_cons, List.mem_singleton, List.not_mem_nil, or_false] at h1 h2
  have suffix_clash : ∀ a b : List Char, a ≠ b → a ∈ [psScopePre, paScopePre] →
      b ∈ [psScopePre, paScopePre] → f1 ++ a = f2 ++ b → False := by
    intro a b hne ha hb heq
    have hs1 : a <:+ f1 ++ a := List.suffix_append f1 a
    have hs2 : b <:+ f1 ++ a := heq ▸ List.suffix_append f2 b
    rcases List.suffix_or_suffix_of_suffix hs1 hs2 with h | h <;>
      (fin_cases ha <;> fin_cases hb <;> simp_all <;> exact absurd h (by decide))
  rcases h1 with rfl | rfl | rfl <;> rcases h2 with rfl | rfl | rfl
  · simpa using he
  · exfalso
    apply hf1
    simp only [List.append_nil] at he
    rw [he, List.getLast?_append_of_ne_nil f2 (by simp [psScopePre])]
    decide
  · exfalso
    apply hf1
    simp only [List.append_nil] at he
    rw [he, List.getLast?_append_of_ne_nil f2 (by simp [paScopePre])]
    decide
  · exfalso
    apply hf2
    simp only [List.append_nil] at he
    rw [← he, List.getLast?_append_of_ne_nil f1 (by simp [psScopePre])]
    decide
  · exact ⟨List.append_cancel_right he, rfl⟩
  · exact (suffix_clash psScopePre paScopePre (by decide) (by simp) (by simp) he).elim
  · exfalso
    apply hf2
    simp only [List.append_nil] at he
    rw [← he, List.getLast?_append_of_ne_nil f1 (by simp [paScopePre])]
    decide
  · exact (suffix_clash paScopePre psScopePre (by decide) (by simp) (by simp) he).elim
  · exact ⟨List.append_cancel_right he, rfl⟩

theorem statStr_inj {f1 f2 m1 m2 : List Char}
    (hm1 : ∃ p ∈ scopeSet, ∃ c ∈ coreSet, m1 = p ++ c)
    (hm2 : ∃ p ∈ scopeSet, ∃ c ∈ coreSet, m2 = p ++ c)
    (hf1 : f1.getLast? ≠ some '_') (hf2 : f2.getLast? ≠ some '_')
    (he : f1 ++ m1 = f2 ++ m2) : f1 = f2 ∧ m1 = m2 := by
  obtain ⟨p1, hp1, c1, hc1, rfl⟩ := hm1
  obtain ⟨p2, hp2, c2, hc2, rfl⟩ := hm2
  obtain rfl : c1 = c2 := core_eq_of_append_eq hc1 hc2 he
  have he2 : (f1 ++ p1) ++ c1 = (f2 ++ p2) ++ c1 := by
    simpa [List.append_assoc] using he
  obtain ⟨hf, hp⟩ := scope_field_inj hp1 hp2 hf1 hf2 (List.append_cancel_right he2)
  exact ⟨hf, by rw [hp]⟩

theorem getD_snoc_self {α : Type} (l : List α) (x d : α) :
    (l ++ [x]).getD l.length d = x := by
  rw [List.getD_eq_getElem _ _ (by simp)]
  simp

/-- Invariant of the request-building loop of `_compute_stats` after
processing the identifiers `names`: the dedup keys are distinct, the three
request lists run in parallel, every request key decomposes as
`field ++ mode` with a well-formed mode, and every processed identifier's
`ids`/`tuple_ids` entries point at the request carrying its dedup key and
its tuple slot. -/
structure GoodState (names : List (List Char)) (st : StatState) : Prop where
  nodup : st.statStrs.Nodup
  lenModes : st.statModes.length = st.statStrs.length
  lenFields : st.statFields.length = st.statStrs.length
  lenIds : st.ids.length = names.length
  lenTids : st.tupleIds.length = names.length
  decomp : ∀ j, j < st.statStrs.length →
    st.statStrs.getD j [] = st.statFields.getD j [] ++ st.statModes.getD j []
  wfReq : ∀ j, j < st.statStrs.length →
    (∃ p ∈ scopeSet, ∃ c ∈ coreSet, st.statModes.getD j [] = p ++ c) ∧
    (st.statFields.getD j []).getLast? ≠ some '_'
  idsSpec : ∀ i, i < names.length →
    st.ids.getD i 0 < st.statStrs.length ∧
    st.statStrs.getD (st.ids.getD i 0) [] = reqStrOf (names.getD i []) ∧
    st.tupleIds.getD i 0 = tupleIdOf (parseStatName (names.getD i [])).stat

theorem listIdxOf_lt_length {x : List Char} {l : List (List Char)} (h : x ∈ l) :
    listIdxOf x l < l.length := by
  induction l with
  | nil => simp at h
  | cons y t ih =>
    by_cases hy : y = x
    · simp [listIdxOf, hy]
    · have hx : x ∈ t := by
        rcases List.mem_cons.1 h with h' | h'
        · exact absurd h'.symm hy
        · exact h'
      simp only [listIdxOf, hy, if_false, List.length_cons, ite_false]
      have := ih hx
      omega

theorem listIdxOf_getD {x : List Char} {l : List (List Char)} (h : x ∈ l) :
    l.getD (listIdxOf x l) [] = x := by
  induction l with
  | nil => simp at h
  | cons y t ih =>
    by_cases hy : y = x
    · simp [listIdxOf, hy]
    · have hx : x ∈ t := by
        rcases List.mem_cons.1 h with h' | h'
        · exact absurd h'.symm hy
        · exact h'
      simp only [listIdxOf, hy, if_false, ite_false]
      simpa using ih hx

theorem statStep_good {names : List (List Char)} {st : StatState} {name : List Char}
    (hg : GoodState names st) (hwf : WFStatName name) :
    ∃ st', statStep st name = .ok st' ∧ GoodState (names ++ [name]) st' := by
  obtain ⟨core, hcore⟩ := Option.isSome_iff_exists.1 hwf.1
  have hreq : reqStrOf name
      = (parseStatName name).field ++ ((parseStatName name).scope ++ core) := by
    simp [reqStrOf, hcore]
  have hnames : ∀ i, i < names.length → (names ++ [name]).getD i [] = names.getD i [] :=
    fun i hi => List.getD_append names [name] [] i hi
  have hnlast : (names ++ [name]).getD names.length [] = name := getD_snoc_self names name []
  by_cases hmem :
      (parseStatName name).field ++ ((parseStatName name).scope ++ core) ∈ st.statStrs
  · refine ⟨⟨st.statFields, st.statModes, st.statStrs,
      st.ids ++ [listIdxOf
        ((parseStatName name).field ++ ((parseStatName name).scope ++ core)) st.statStrs],
      st.tupleIds ++ [tupleIdOf (parseStatName name).stat]⟩, ?_, ?_⟩
    · simp only [statStep, hcore]
      rw [if_pos hmem]
    · refine ⟨hg.nodup, hg.lenModes, hg.lenFields, by simp [hg.lenIds],
        by simp [hg.lenTids], hg.decomp, hg.wfReq, ?_⟩
      intro i hi
      dsimp only
      simp only [List.length_append, List.length_singleton] at hi
      rcases Nat.lt_or_ge i names.length with hlt | hge
      · rw [List.getD_append st.ids _ 0 i (by rw [hg.lenIds]; exact hlt),
          List.getD_append st.tupleIds _ 0 i (by rw [hg.lenTids]; exact hlt),
          hnames i hlt]
        exact hg.idsSpec i hlt
      · have hieq : i = names.length := by omega
        subst hieq
        rw [hnlast]
        have hids : (st.ids ++ [listIdxOf ((parseStatName name).field ++
              ((parseStatName name).scope ++ core)) st.statStrs]).getD names.length 0
            = listIdxOf ((parseStatName name).field ++
              ((parseStatName name).scope ++ core)) st.statStrs := by
          rw [← hg.lenIds]
          exact getD_snoc_self _ _ _
        have htids : (st.tupleIds ++ [tupleIdOf (parseStatName name).stat]).getD
              names.length 0 = tupleIdOf (parseStatName name).stat := by
          rw [← hg.lenTids]
          exact getD_snoc_self _ _ _
        refine ⟨by rw [hids]; exact listIdxOf_lt_length hmem, ?_, by rw [htids]⟩
        rw [hids, hreq]
        exact listIdxOf_getD hmem
  · refine ⟨⟨st.statFields ++ [(parseStatName name).field],
      st.statModes ++ [(parseStatName name).scope ++ core],
      st.statStrs ++ [(parseStatName name).field ++ ((parseStatName name).scope ++ core)],
      st.ids ++ [st.statStrs.length],
      st.tupleIds ++ [tupleIdOf (parseStatName name).stat]⟩, ?_, ?_⟩
    · simp only [statStep, hcore]
      rw [if_neg hmem]
    · refine ⟨?_, by simp [hg.lenModes], by simp [hg.lenFields], by simp [hg.lenIds],
        by simp [hg.lenTids], ?_, ?_, ?_⟩
      · dsimp only
        simp only [List.nodup_append, List.nodup_cons, List.not_mem_nil, not_false_iff,
          List.nodup_nil, and_true, true_and]
        exact ⟨hg.nodup, by simpa using hmem⟩
      · intro j hj
        dsimp only at hj ⊢
        simp only [List.length_append, List.length_singleton] at hj
        rcases Nat.lt_or_ge j st.statStrs.length with hlt | hge
        · rw [List.getD_append st.statStrs _ [] j hlt,
            List.getD_append st.statFields _ [] j (by rw [hg.lenFields]; exact hlt),
            List.getD_append st.statModes _ [] j (by rw [hg.lenModes]; exact hlt)]
          exact hg.decomp j hlt
        · have hjeq : j = st.statStrs.length := by omega
          subst hjeq
          rw [getD_snoc_self]
          rw [show st.statStrs.length = st.statFields.length from hg.lenFields.symm,
            getD_snoc_self]
          rw [show st.statFields.length = st.statModes.length from by
              rw [hg.lenFields, hg.lenModes],
            getD_snoc_self]
      · intro j hj
        dsimp only at hj ⊢
        simp only [List.length_append, List.length_singleton] at hj
        rcases Nat.lt_or_ge j st.statStrs.length with hlt | hge
        · rw [List.getD_append st.statModes _ [] j (by rw [hg.lenModes]; exact hlt),
            List.getD_append st.statFields _ [] j (by rw [hg.lenFields]; exact hlt)]
          exact hg.wfReq j hlt
        · have hjeq : j = st.statStrs.length := by omega
          subst hjeq
          rw [show st.statStrs.length = st.statModes.length from hg.lenModes.symm,
            getD_snoc_self]
          rw [show st.statModes.length = st.statFields.length from by
              rw [hg.lenModes, hg.lenFields],
            getD_snoc_self]
          exact ⟨⟨(parseStatName name).scope, parse_scope_mem name, core,
            statCoreOf_mem hcore, rfl⟩, hwf.2⟩
      · intro i hi
        dsimp only at hi ⊢
        simp only [List.length_append, List.length_singleton] at hi
        rcases Nat.lt_or_ge i names.length with hlt | hge
        · rw [List.getD_append st.ids _ 0 i (by rw [hg.lenIds]; exact hlt),
            List.getD_append st.tupleIds _ 0 i (by rw [hg.lenTids]; exact hlt),
            hnames i hlt]
          obtain ⟨ha, hb, hc⟩ := hg.idsSpec i hlt
          refine ⟨by simp only [List.length_append, List.length_singleton]; omega, ?_, hc⟩
          rw [List.getD_append st.statStrs _ [] _ ha]
          exact hb
        · have hieq : i = names.length := by omega
          subst hieq
          rw [hnlast]
          have hids : (st.ids ++ [st.statStrs.length]).getD names.length 0
              = st.statStrs.length := by
            rw [← hg.lenIds]
            exact getD_snoc_self _ _ _
          have htids : (st.tupleIds ++ [tupleIdOf (parseStatName name).stat]).getD
                names.length 0 = tupleIdOf (parseStatName name).stat := by
            rw [← hg.lenTids]
            exact getD_snoc_self _ _ _
          refine ⟨by rw [hids]; simp, ?_, by rw [htids]⟩
          rw [hids, getD_snoc_self, hreq]

theorem runStats_good (rest : List (List Char)) :
    ∀ (pre : List (List Char)) (st : StatState),
    (∀ n ∈ rest, WFStatName n) → GoodState pre st →
    ∃ st', runStatsAux st rest = .ok st' ∧ GoodState (pre ++ rest) st' := by
  induction rest with
  | nil =>
    intro pre st _ hg
    refine ⟨st, rfl, ?_⟩
    rw [List.append_nil]
    exact hg
  | cons n t ih =>
    intro pre st hwf hg
    obtain ⟨st1, hstep, hg1⟩ := statStep_good hg (hwf n (by simp))
    obtain ⟨st', hrun, hg'⟩ := ih (pre ++ [n]) st1 (fun m hm => hwf m (by simp [hm])) hg1
    refine ⟨st', ?_, ?_⟩
    · simp only [runStatsAux, hstep]
      exact hrun
    · have heq : (pre ++ [n]) ++ t = pre ++ n :: t := by simp
      rw [← heq]
      exact hg'

theorem initStatState_good : GoodState [] initStatState :=
  ⟨List.nodup_nil, rfl, rfl, rfl, rfl,
   fun j hj => absurd hj (by simp [initStatState]),
   fun j hj => absurd hj (by simp [initStatState]),
   fun i hi => absurd hi (by simp)⟩

theorem nodup_getD_inj {l : List (List Char)} (h : l.Nodup) {i j : ℕ}
    (hi : i < l.length) (hj : j < l.length) (he : l.getD i [] = l.getD j []) : i = j := by
  rw [List.getD_eq_getElem _ _ hi, List.getD_eq_getElem _ _ hj] at he
  exact (List.Nodup.getElem_inj_iff h).1 he

theorem getD_zip {α β : Type} (l : List α) (l' : List β) (i : ℕ) (d : α) (d' : β)
    (h1 : i < l.length) (h2 : i < l'.length) :
    (l.zip l').getD i (d, d') = (l.getD i d, l'.getD i d') := by
  rw [List.getD_eq_getElem _ _ (by rw [List.length_zip]; omega),
    List.getD_eq_getElem _ _ h1, List.getD_eq_getElem _ _ h2, List.getElem_zip]

theorem selectStats_getD (st : StatState) (vals : List (ℚ × ℚ)) (i : ℕ)
    (hi : i < st.ids.length) (ht : i < st.tupleIds.length) :
    (selectStats st vals).getD i 0
      = slotOf (st.tupleIds.getD i 0) (vals.getD (st.ids.getD i 0) (0, 0)) := by
  unfold selectStats
  rw [getD_map _ _ i 0 (0, 0) (by rw [List.length_zip]; omega),
    getD_zip st.ids st.tupleIds i 0 0 hi ht]

/-- Claim C4: for a well-formed identifier list containing both a
`dataset_X_mean` and a `dataset_X_std` identifier of the same field `X`
and scope `P`, the resolver issues exactly one backend request with field
`X` and mode `P ++ "mean_std"`; every occurrence of the mean identifier
maps to that request with tuple slot 0 and of the std identifier with
tuple slot 1 (so the returned value list reads that request's primary,
resp. secondary, tuple component); and an `rms` identifier is never merged
into the same request as a `mean`/`std` identifier. -/
theorem computeStats_mean_std_merged
    (strs : List (List Char)) (X P meanStr stdStr : List Char)
    (hWF : ∀ s ∈ strs, WFStatName s)
    (hpm : parseStatName meanStr = ⟨X, P, meanStat⟩)
    (hps : parseStatName stdStr = ⟨X, P, stdStat⟩)
    (hm : meanStr ∈ strs) (_hs : stdStr ∈ strs) :
    ∃ st, computeStatsRequests strs = .ok st ∧
      ∃ j, j < st.statStrs.length ∧
        st.statFields.getD j [] = X ∧
        st.statModes.getD j [] = P ++ msCore ∧
        (∀ j', j' < st.statStrs.length → st.statFields.getD j' [] = X →
          st.statModes.getD j' [] = P ++ msCore → j' = j) ∧
        (∀ i, i < strs.length → strs.getD i [] = meanStr →
          st.ids.getD i 0 = j ∧ st.tupleIds.getD i 0 = 0 ∧
          ∀ vals : List (ℚ × ℚ),
            (selectStats st vals).getD i 0 = (vals.getD j (0, 0)).1) ∧
        (∀ i, i < strs.length → strs.getD i [] = stdStr →
          st.ids.getD i 0 = j ∧ st.tupleIds.getD i 0 = 1 ∧
          ∀ vals : List (ℚ × ℚ),
            (selectStats st vals).getD i 0 = (vals.getD j (0, 0)).2) ∧
        (∀ i i', i < strs.length → i' < strs.length →
          (parseStatName (strs.getD i [])).stat = rmsCore →
          ((parseStatName (strs.getD i' [])).stat = meanStat ∨
            (parseStatName (strs.getD i' [])).stat = stdStat) →
          st.ids.getD i 0 ≠ st.ids.getD i' 0) ∧
        (∀ backend : List (List Char) → List (List Char) → List (ℚ × ℚ),
          computeStats backend strs
            = .ok (selectStats st (backend st.statFields st.statModes))) := by
  obtain ⟨st, hrun, hg0⟩ := runStats_good strs [] initStatState hWF initStatState_good
  have hg : GoodState strs st := by
    rw [List.nil_append] at hg0
    exact hg0
  have hcm : statCoreOf meanStat = some msCore := by decide
  have hcs : statCoreOf stdStat = some msCore := by decide
  have hcr : statCoreOf rmsCore = some rmsCore := by decide
  have htm : tupleIdOf meanStat = 0 := by decide
  have hts : tupleIdOf stdStat = 1 := by decide
  have hrm : reqStrOf meanStr = X ++ (P ++ msCore) := by simp [reqStrOf, hpm, hcm]
  have hrs : reqStrOf stdStr = X ++ (P ++ msCore) := by simp [reqStrOf, hps, hcs]
  have hP : P ∈ scopeSet := by
    have h := parse_scope_mem meanStr
    rw [hpm] at h
    exact h
  have hX : X.getLast? ≠ some '_' := by
    have h := (hWF meanStr hm).2
    rw [hpm] at h
    exact h
  obtain ⟨im, himl, himeq⟩ := List.getElem_of_mem hm
  have hmgetD : strs.getD im [] = meanStr := by rw [List.getD_eq_getElem _ _ himl, himeq]
  obtain ⟨hjlt, hjstr, hjtid⟩ := hg.idsSpec im himl
  rw [hmgetD, hrm] at hjstr
  have hdec := hg.decomp _ hjlt
  have hwfj := hg.wfReq _ hjlt
  have hXP := statStr_inj hwfj.1 ⟨P, hP, msCore, by simp [coreSet], rfl⟩ hwfj.2 hX
    (hdec.symm.trans hjstr)
  refine ⟨st, hrun, st.ids.getD im 0, hjlt, hXP.1, hXP.2, ?_, ?_, ?_, ?_, ?_⟩
  · intro j' hj' hfj' hmj'
    apply nodup_getD_inj hg.nodup hj' hjlt
    rw [hg.decomp _ hj', hfj', hmj', hjstr]
  · intro i hi hieq
    obtain ⟨ha, hb, hc⟩ := hg.idsSpec i hi
    rw [hieq, hrm] at hb
    have hideq : st.ids.getD i 0 = st.ids.getD im 0 :=
      nodup_getD_inj hg.nodup ha hjlt (by rw [hb, hjstr])
    simp only [hieq, hpm, htm] at hc
    refine ⟨hideq, hc, ?_⟩
    intro vals
    rw [selectStats_getD st vals i (by rw [hg.lenIds]; exact hi)
      (by rw [hg.lenTids]; exact hi), hc, hideq]
    simp [slotOf]
  · intro i hi hieq
    obtain ⟨ha, hb, hc⟩ := hg.idsSpec i hi
    rw [hieq, hrs] at hb
    have hideq : st.ids.getD i 0 = st.ids.getD im 0 :=
      nodup_getD_inj hg.nodup ha hjlt (by rw [hb, hjstr])
    simp only [hieq, hps, hts] at hc
    refine ⟨hideq, hc, ?_⟩
    intro vals
    rw [selectStats_getD st vals i (by rw [hg.lenIds]; exact hi)
      (by rw [hg.lenTids]; exact hi), hc, hideq]
    simp [slotOf]
  · intro i i' hi hi' hstri hstri' heq
    obtain ⟨ha, hb, _⟩ := hg.idsSpec i hi
    obtain ⟨ha', hb', _⟩ := hg.idsSpec i' hi'
    rw [heq] at hb
    have hreqeq : reqStrOf (strs.getD i []) = reqStrOf (strs.getD i' []) := by
      rw [← hb, hb']
    have h1 : reqStrOf (strs.getD i [])
        = (parseStatName (strs.getD i [])).field ++
          ((parseStatName (strs.getD i [])).scope ++ rmsCore) := by
      unfold reqStrOf
      rw [hstri, hcr]
      rfl
    have h2 : reqStrOf (strs.getD i' [])
        = (parseStatName (strs.getD i' [])).field ++
          ((parseStatName (strs.getD i' [])).scope ++ msCore) := by
      unfold reqStrOf
      rcases hstri' with h' | h'
      · rw [h', hcm]
        rfl
      · rw [h', hcs]
        rfl
    rw [h1, h2] at hreqeq
    have := core_eq_of_append_eq (by simp [coreSet]) (by simp [coreSet]) hreqeq
    exact absurd this (by decide)
  · intro backend
    simp only [computeStats, computeStatsRequests] at hrun ⊢
    rw [hrun]

theorem computeStats_mean_std_merged_witness :
    ∃ st, computeStatsRequests ["dataset_forces_mean".toList, "dataset_forces_std".toList,
        "dataset_forces_rms".toList] = .ok st ∧
      ∃ j, j < st.statStrs.length ∧
        st.statFields.getD j [] = "forces".toList ∧
        st.statModes.getD j [] = ([] : List Char) ++ msCore ∧
        (∀ j', j' < st.statStrs.length → st.statFields.getD j' [] = "forces".toList →
          st.statModes.getD j' [] = ([] : List Char) ++ msCore → j' = j) ∧
        (∀ i, i < (["dataset_forces_mean".toList, "dataset_forces_std".toList,
            "dataset_forces_rms".toList] : List (List Char)).length →
          (["dataset_forces_mean".toList, "dataset_forces_std".toList,
            "dataset_forces_rms".toList] : List (List Char)).getD i []
            = "dataset_forces_mean".toList →
          st.ids.getD i 0 = j ∧ st.tupleIds.getD i 0 = 0 ∧
          ∀ vals : List (ℚ × ℚ),
            (selectStats st vals).getD i 0 = (vals.getD j (0, 0)).1) ∧
        (∀ i, i < (["dataset_forces_mean".toList, "dataset_forces_std".toList,
            "dataset_forces_rms".toList] : List (List Char)).length →
          (["dataset_forces_mean".toList, "dataset_forces_std".toList,
            "dataset_forces_rms".toList] : List (List Char)).getD i []
            = "dataset_forces_std".toList →
          st.ids.getD i 0 = j ∧ st.tupleIds.getD i 0 = 1 ∧
          ∀ vals : List (ℚ × ℚ),
            (selectStats st vals).getD i 0 = (vals.getD j (0, 0)).2) ∧
        (∀ i i', i < (["dataset_forces_mean".toList, "dataset_forces_std".toList,
            "dataset_forces_rms".toList] : List (List Char)).length →
          i' < (["dataset_forces_mean".toList, "dataset_forces_std".toList,
            "dataset_forces_rms".toList] : List (List Char)).length →
          (parseStatName ((["dataset_forces_mean".toList, "dataset_forces_std".toList,
            "dataset_forces_rms".toList] : List (List Char)).getD i [])).stat = rmsCore →
          ((parseStatName ((["dataset_forces_mean".toList, "dataset_forces_std".toList,
            "dataset_forces_rms".toList] : List (List Char)).getD i' [])).stat = meanStat ∨
           (parseStatName ((["dataset_forces_mean".toList, "dataset_forces_std".toList,
            "dataset_forces_rms".toList] : List (List Char)).getD i' [])).stat = stdStat) →
          st.ids.getD i 0 ≠ st.ids.getD i' 0) ∧
        (∀ backend : List (List Char) → List (List Char) → List (ℚ × ℚ),
          computeStats backend ["dataset_forces_mean".toList, "dataset_forces_std".toList,
            "dataset_forces_rms".toList]
            = .ok (selectStats st (backend st.statFields st.statModes))) :=
  computeStats_mean_std_merged
    ["dataset_forces_mean".toList, "dataset_forces_std".toList, "dataset_forces_rms".toList]
    "forces".toList [] "dataset_forces_mean".toList "dataset_forces_std".toList
    (by
      intro s hs2
      fin_cases hs2 <;> exact ⟨by decide, by decide⟩)
    (by decide) (by decide) (by decide) (by decide)
